import Mathlib

/-!
Verification of the Tinta console-styling builder (a shallow embedding of
src/tinta/tinta.py, src/tinta/stylize.py, src/tinta/ansi.py and
src/tinta/constants.py).

Conventions of the embedding:
* Python strings are Lean String values, indexed by code points (String.toList).
* Python in-place mutation is state passing: every method that mutates a
  Tinta or Styler object returns the updated value.
* Python exceptions are Except Err; a function that can only raise on inputs
  that are unreachable from the modelled call sites is kept total and the
  unreachable case is noted in a comment.
* Machine integers do not overflow here (ANSI codes are small), so Python int
  is Int and Python non-negative counts are Nat.
-/

namespace TintaModel

/-- Errors raised by the modelled code (typ.MissingColorError, AttributeError,
ValueError, stylize.InvalidStyleError). Messages follow the source but elide
the single-quote characters the source puts around interpolated values. -/
inductive Err where
  | missingColor (msg : String)
  | attributeError (msg : String)
  | valueError (msg : String)
  | invalidStyle (msg : String)
deriving DecidableEq, Repr

/- constants.py -/

/-- constants.SEP: default separator (env override TINTA_SEPARATOR unset). -/
def SEP : String := " "

/-- os.linesep on the reference (Linux) platform. -/
def LINESEP : String := "\n"

/-- constants.ANSI_RESET (and ANSI_RESET_OCT, the identical string: the octal
escape 033 denotes the same code point as x1b). -/
def ANSI_RESET : String := "\x1b[0m"

/-- constants.ANSI_STYLES, in source order. -/
def ANSI_STYLES : List String :=
  ["bold", "dim", "italic", "underline", "blink",
   "rapid_blink", "invert", "conceal", "strikethrough"]

/-- constants.ANSI_STYLES_OFF. The source tuples also hold the integer codes
0, 1, 2, 3, 4, 7, 9 as alternate keys; the lookup in _style_codes is only ever
performed with string keys here, so the integer keys are dropped. -/
def ANSI_STYLES_OFF : List (List String × Nat) :=
  [(["reset", "normal", "clear"], 0),
   (["bold", "dim"], 22),
   (["italic"], 23),
   (["underline"], 24),
   (["invert"], 27),
   (["strikethrough"], 29)]

/-- constants.PUNC. -/
def PUNC : List Char := ['.', ',', ';', ':', '!', '?']

/- Python string primitives used by the source. -/

/-- The whitespace characters stripped by Python str.rstrip() (ASCII range;
the claims exercise no other whitespace). -/
def pyIsSpace (c : Char) : Bool :=
  c = ' ' ∨ c = '\t' ∨ c = '\n' ∨ c = '\r' ∨ c = '\x0b' ∨ c = '\x0c'

/-- len(s.rstrip()): the length of s without its trailing whitespace. -/
def rstripLen (s : String) : Nat :=
  (s.toList.reverse.dropWhile pyIsSpace).length

/-- Python slice s[:k] (k in code points). -/
def strTake (s : String) (k : Nat) : String :=
  String.mk (s.toList.take k)

/-- Python slice s[k:]. -/
def strDrop (s : String) (k : Nat) : String :=
  String.mk (s.toList.drop k)

/-- s.rstrip(). -/
def pyRstrip (s : String) : String :=
  strTake s (rstripLen s)

/-- Python s.startswith(pre) (code-point based, like Python indexing). -/
def pyStartsWith (s pre : String) : Bool :=
  pre.toList.isPrefixOf s.toList

/-- Python s.endswith(suf). -/
def pyEndsWith (s suf : String) : Bool :=
  suf.toList.reverse.isPrefixOf s.toList.reverse

/-- Python s.strip() with no argument: strip whitespace from both ends. -/
def pyTrim (s : String) : String :=
  String.mk (((s.toList.dropWhile pyIsSpace).reverse.dropWhile pyIsSpace).reverse)

/-- Python s.split(c) for a one-character separator. -/
def splitOnChar (c : Char) (l : List Char) : List (List Char) :=
  l.foldr
    (fun x acc =>
      if x = c then [] :: acc
      else
        match acc with
        | a :: rest => (x :: a) :: rest
        | [] => [[x]])
    [[]]

/- stylize.py: small helpers -/

/-- stylize._join: join values with semicolons, then strip stray semicolons
and whitespace from both ends. -/
def pyJoin (values : List String) : String :=
  let j := String.intercalate ";" values
  let l := (j.toList.dropWhile (· = ';')).reverse.dropWhile (· = ';') |>.reverse
  pyTrim (String.mk l)

/-- stylize.is_ansi_str. The second test of the source, an 033-prefixed
string, is the identical two-character prefix in Python. -/
def is_ansi_str (s : String) : Bool :=
  pyStartsWith s "\x1b["

/-- stylize.ansi_color_to_int. int() parsing is String.toInt? here. Both
arms of the final if return int(seg[-1]), as in the source. -/
def ansi_color_to_int (s : String) : Except Err Int :=
  if ¬ is_ansi_str s then
    .error (.valueError s!"String {s} is not an ANSI escape sequence.")
  else
    let s := strDrop s 2
    let s := if pyEndsWith s "m" then strTake s (s.toList.length - 1) else s
    let seg := (splitOnChar ';' s.toList).map String.mk
    if seg.length ≥ 3 then
      match (seg.getLastD "").toInt? with
      | some n => .ok n
      | none => .error (.valueError s!"invalid literal for int")
    else
      .error (.valueError s!"Could not parse ANSI escape sequence {s}")

/-- stylize._style_codes, first component: ANSI_STYLES.index(style) + 1.
Callers only pass members of ANSI_STYLES (the source raises for others). -/
def styleOn (style : String) : Nat :=
  ANSI_STYLES.indexOf style + 1

/-- stylize._style_codes, second component: the first matching off code in
ANSI_STYLES_OFF, defaulting to 0. -/
def styleOff (style : String) : Nat :=
  ((ANSI_STYLES_OFF.find? (fun ic => ic.1.contains style)).map (·.2)).getD 0

/-- sorted(set(l)) over Nat: insert while keeping the list sorted, without
duplicates. -/
def insertUnique (n : Nat) : List Nat → List Nat
  | [] => [n]
  | m :: rest =>
      if n = m then m :: rest
      else if n < m then n :: m :: rest
      else m :: insertUnique n rest

/-- sorted(set(l)). -/
def sortedSet (l : List Nat) : List Nat :=
  l.foldr insertUnique []

/-- stylize._color_code for an int spec and base 30 (the only call shape in
stylize.stylize): 0 is the default-color reset, 1..255 is the 256-color
sequence, any other int raises ValueError. -/
def colorCode (spec : Int) (base : Nat) : Except Err String :=
  if spec = 0 then .ok "0"
  else if 1 ≤ spec ∧ spec ≤ 255 then
    .ok (pyJoin [toString (base + 8), "5", toString spec])
  else .error (.valueError s!"Could not parse color {spec}")

/- ansi.py: the color registry, as the loaded (name, code) association list
in insertion order (Python dicts preserve insertion order). -/

abbrev Registry := List (String × Int)

/-- AnsiColors.get. -/
def Registry.get (reg : Registry) (color : String) : Except Err Int :=
  if color = "default" then .ok 0
  else if is_ansi_str color then ansi_color_to_int color
  else
    match reg.lookup color with
    | some v => .ok v
    | none => .error (.missingColor s!"Color {color} not found in colors.ini.")

/-- AnsiColors.reverse_get. -/
def Registry.reverse_get (reg : Registry) (code : Int) (ignoreErrors : Bool) :
    Except Err String :=
  if code = 0 then .ok "default"
  else
    match reg.find? (fun kv => kv.2 = code) with
    | some kv => .ok kv.1
    | none =>
        if ¬ ignoreErrors then
          .error (.missingColor s!"Color with ANSI code {code} not found in colors.ini.")
        else .ok "[undefined color]"

/-- AnsiColors.reverse_get with ignore_errors=True never raises. -/
def Registry.reverse_getD (reg : Registry) (code : Int) : String :=
  match reg.reverse_get code true with
  | .ok s => s
  | .error _ => "[undefined color]"

/-- Substring occurrence at any position of a character list. -/
def substrAux (needle : List Char) : List Char → Bool
  | [] => needle.isEmpty
  | c :: rest => needle.isPrefixOf (c :: rest) || substrAux needle rest

/-- search.lower() in k.lower() (keys are already lowercase). -/
def substrIn (needle hay : String) : Bool :=
  substrAux needle.toList hay.toList

/-- ansi._alias_keys: for each key of the ini snapshot containing search,
add the spelling alias (search replaced by repl) to both the ini section and
the color dict, unless either already defines it. The iteration snapshot is
the key list at loop start (configparser section iteration copies the keys).
State is the pair (ini section, color dict). -/
def aliasKeys (st : Registry × Registry) (search repl : String) :
    Registry × Registry :=
  let keys := (st.1.map (·.1)).filter (fun k => substrIn search k)
  keys.foldl
    (fun (acc : Registry × Registry) k =>
      let aliasKey := k.replace search repl
      if (acc.1.lookup aliasKey).isNone ∧ (acc.2.lookup aliasKey).isNone then
        match acc.1.lookup k with
        | some v => (acc.1 ++ [(aliasKey, v)], acc.2 ++ [(aliasKey, v)])
        | none => acc
      else acc)
    st

/-- AnsiColors.load_colors, applied to the parsed [colors] section (a fresh
ini state; file reading and int() parsing of the values are done by the
caller of this model). The reserved-name check in the source body is
commented out there: load_colors accepts every mapping. -/
def load_colors (ini : Registry) : Registry :=
  let dict := ini
  let st := aliasKeys (ini, dict) "gray" "grey"
  let st := aliasKeys st "grey" "gray"
  st.2

/- tinta.py: Tinta.Styler -/

/-- Tinta.Styler: the live style record. The nine Bool fields are the
ANSI_STYLES flags in source order; force_clear is the _force_clear marker.
Field defaults are the class attribute defaults of the source. -/
structure Styler where
  color : String := "default"
  color_code : Int := 0
  bold : Bool := false
  dim : Bool := false
  italic : Bool := false
  underline : Bool := false
  blink : Bool := false
  rapid_blink : Bool := false
  invert : Bool := false
  conceal : Bool := false
  strikethrough : Bool := false
  force_clear : Bool := false
deriving DecidableEq, Repr

/-- A style name validated by stylize.validate_styles: membership in
ANSI_STYLES is enforced by this type (the source raises InvalidStyleError
for anything else). -/
inductive StyleName where
  | bold | dim | italic | underline | blink
  | rapid_blink | invert | conceal | strikethrough
deriving DecidableEq, Repr

/-- The string of a StyleName, as listed in ANSI_STYLES. -/
def StyleName.str : StyleName → String
  | .bold => "bold"
  | .dim => "dim"
  | .italic => "italic"
  | .underline => "underline"
  | .blink => "blink"
  | .rapid_blink => "rapid_blink"
  | .invert => "invert"
  | .conceal => "conceal"
  | .strikethrough => "strikethrough"

/-- getattr(styler, st) for st in ANSI_STYLES. -/
def Styler.flag (st : Styler) : StyleName → Bool
  | .bold => st.bold
  | .dim => st.dim
  | .italic => st.italic
  | .underline => st.underline
  | .blink => st.blink
  | .rapid_blink => st.rapid_blink
  | .invert => st.invert
  | .conceal => st.conceal
  | .strikethrough => st.strikethrough

/-- setattr(styler, st, b) for st in ANSI_STYLES. -/
def Styler.setFlag (st : Styler) (name : StyleName) (b : Bool) : Styler :=
  match name with
  | .bold => { st with bold := b }
  | .dim => { st with dim := b }
  | .italic => { st with italic := b }
  | .underline => { st with underline := b }
  | .blink => { st with blink := b }
  | .rapid_blink => { st with rapid_blink := b }
  | .invert => { st with invert := b }
  | .conceal => { st with conceal := b }
  | .strikethrough => { st with strikethrough := b }

/-- The ANSI_STYLES names as StyleName values, in source order. -/
def styleNames : List StyleName :=
  [.bold, .dim, .italic, .underline, .blink,
   .rapid_blink, .invert, .conceal, .strikethrough]

/-- Tinta.Styler.active_styles: names of the set flags, in ANSI_STYLES
order. -/
def Styler.active_styles (st : Styler) : List String :=
  (styleNames.filter st.flag).map StyleName.str

/-- Tinta.Styler.copy: copies color, color_code and the nine style flags;
_force_clear is not copied (the fresh object falls back to the class
default, False). -/
def Styler.copy (st : Styler) : Styler :=
  { st with force_clear := false }

/-- Tinta.Styler.toggle_styles for one validated style name. -/
def Styler.toggle_styles (st : Styler) (name : StyleName) : Styler :=
  st.setFlag name (¬ st.flag name)

/-- Tinta.Styler.clear_styles. -/
def Styler.clear_styles (st : Styler) : Styler :=
  styleNames.foldl (fun s n => s.setFlag n false) st

/-- A color argument: Python str or int. -/
inductive ColorArg where
  | str (s : String)
  | int (n : Int)
deriving DecidableEq, Repr

/-- Tinta.Styler.set_color, int branch (never raises). -/
def Styler.set_color_int (reg : Registry) (st : Styler) (n : Int) : Styler :=
  { st with color := reg.reverse_getD n, color_code := n }

/-- Tinta.Styler.set_color. For a string the code lookup runs first; if it
raises MissingColorError nothing has been assigned yet. -/
def Styler.set_color (reg : Registry) (st : Styler) :
    ColorArg → Except Err Styler
  | .str c => do
      let code ← reg.get c
      pure { st with
              color := if is_ansi_str c then reg.reverse_getD code else c,
              color_code := code }
  | .int n => pure (st.set_color_int reg n)

/-- Tinta.Styler.clear_all. -/
def Styler.clear_all (reg : Registry) (st : Styler) (force : Bool) : Styler :=
  let st := st.clear_styles
  let st := st.set_color_int reg 0
  { st with force_clear := force }

/- tinta.py: Tinta.Part and stylize.stylize -/

/-- Tinta.Part: a committed text segment with its captured style snapshot
and join separator. -/
structure Part where
  s : String
  styler : Styler := {}
  sep : String := SEP
deriving DecidableEq, Repr

/-- Tinta.Part.has_formatting: bool(active_styles or color_code). -/
def Part.has_formatting (p : Part) : Bool :=
  ¬ p.styler.active_styles.isEmpty ∨ p.styler.color_code ≠ 0

/-- Tinta.Part.style. -/
def Part.style (p : Part) : List String :=
  p.styler.active_styles

/-- Tinta.Part.color_code. -/
def Part.color_code (p : Part) : Int :=
  p.styler.color_code

/-- The on string of stylize.stylize: codes present in the current part but
not in effect from the previous part. Fails only when _color_code rejects an
out-of-range color code. -/
def stylizeOn (lp : Option Part) (mp : Part) : Except Err String :=
  if ¬ mp.has_formatting then .ok ""
  else do
    let base :=
      match lp with
      | none => pyJoin (mp.style.map (fun st => toString (styleOn st)))
      | some l =>
          if ¬ l.has_formatting then
            pyJoin (mp.style.map (fun st => toString (styleOn st)))
          else if mp.style ≠ l.style then
            pyJoin ((mp.style.filter (fun st => st ∉ l.style)).map
              (fun st => toString (styleOn st)))
          else ""
    let colorNew : Bool :=
      match lp with
      | none => true
      | some l => mp.color_code ≠ l.color_code
    if mp.color_code ≠ 0 ∧ colorNew then do
      let cc ← colorCode mp.color_code 30
      pure (pyJoin [base, cc])
    else pure base

/-- The off string of stylize.stylize: a full reset when the next part has no
formatting (or is absent), when the snapshot carries _force_clear, or when
styles end and the colors differ; otherwise the specific off codes of the
styles missing from the next part. -/
def stylizeOff (mp : Part) (np : Option Part) : String :=
  if ¬ mp.has_formatting then ""
  else
    match np with
    | none => "0"
    | some n =>
        if ¬ n.has_formatting ∨ mp.styler.force_clear ∨
            (¬ mp.style.isEmpty ∧ n.style.isEmpty ∧ mp.color_code ≠ n.color_code) then
          "0"
        else if mp.style ≠ n.style then
          pyJoin ((sortedSet ((mp.style.filter (fun st => st ∉ n.style)).map
            styleOff)).map toString)
        else ""

/-- stylize.stylize: wrap s in the on and off codes for the boundary between
lp, mp and np; the off code is spliced in before the trailing whitespace of
s. The source replaces a None s by the empty string; every call site passes
the Part text, a string, so s is typed String here. -/
def stylize (s : String) (lp : Option Part) (mp : Part) (np : Option Part) :
    Except Err String := do
  let onStr ← stylizeOn lp mp
  let off := stylizeOff mp np
  let left := if onStr ≠ "" then "\x1b[" ++ onStr ++ "m" else ""
  let right := if off ≠ "" then "\x1b[" ++ off ++ "m" else ""
  let k := rstripLen s
  pure (left ++ strTake s k ++ right ++ strDrop s k)

/- tinta.py: the Tinta builder -/

/-- The Tinta builder state: the live style, the segment list and the
pending line-break prefixes. -/
structure Tinta where
  styler : Styler := {}
  parts : List Part := []
  prefixes : List String := []
deriving DecidableEq, Repr

/-- A fresh Tinta() with the default color and no styles (the initial text
of the constructor, when present, is a subsequent push). -/
def Tinta.init : Tinta := {}

/-- Tinta.push. The current_part property first appends an empty Part when
the list is empty; if the resulting last part already holds text a new Part
capturing a snapshot is appended, otherwise the last part is updated in
place. Afterwards _force_clear of the live style is reset. A sep argument of
none stands for the Python default (and for an explicit None, mapped to SEP
by the body). -/
def Tinta.push (t : Tinta) (s : List String) (sep0 : Option String := none) :
    Tinta :=
  let sep := sep0.getD SEP
  let pln := if s.isEmpty then "" else String.intercalate sep s
  let pln := if t.prefixes.isEmpty then pln else String.join t.prefixes ++ pln
  let prefixes : List String := if t.prefixes.isEmpty then t.prefixes else []
  let parts0 := if t.parts.isEmpty then [({ s := "" } : Part)] else t.parts
  let parts1 :=
    if (parts0.getLastD { s := "" }).s ≠ "" then
      parts0 ++ [{ s := pln, styler := t.styler.copy, sep := sep }]
    else
      parts0.dropLast ++ [{ s := pln, styler := t.styler.copy, sep := sep }]
  { styler := { t.styler with force_clear := false },
    parts := parts1, prefixes := prefixes }

/-- Tinta.pop: removes min(qty, len) trailing parts, then resets the live
style to a copy of the new last snapshot, or to a fresh Styler() when no
parts remain. -/
def Tinta.pop (t : Tinta) (qty : Nat := 1) : Tinta :=
  let parts := t.parts.take (t.parts.length - qty)
  { t with parts := parts,
           styler := match parts.getLast? with
                     | some p => p.styler.copy
                     | none => {} }

/-- Tinta._parts_tuple: the (lookbehind, part, lookahead) enumeration,
written with the previous part as accumulator. -/
def tuplesAux (prev : Option Part) : List Part → List (Option Part × Part × Option Part)
  | [] => []
  | [p] => [(prev, p, none)]
  | p :: q :: rest => (prev, p, some q) :: tuplesAux (some p) (q :: rest)

/-- Tinta._parts_tuple over a part list. -/
def partsTuple (l : List Part) : List (Option Part × Part × Option Part) :=
  tuplesAux none l

/-- Tinta._get_sep. -/
def getSep (mp : Part) (np : Option Part) (sep : Option String) : String :=
  match np with
  | none => ""
  | some _ => sep.getD mp.sep

/-- The early-return conditions of Tinta._get_str under smart punctuation:
next text absent or empty, current text empty, a line break at the junction,
or leading punctuation that is alone or followed by a space. -/
def suppressSep (mp : Part) (np : Option Part) : Bool :=
  match np with
  | none => true
  | some np =>
      np.s == "" || mp.s == "" ||
      pyStartsWith np.s LINESEP || pyEndsWith mp.s LINESEP ||
      (match np.s.toList with
       | [] => false
       | c :: rest => PUNC.contains c && (rest.isEmpty || rest.head? == some ' '))

/-- The attr parameter of Tinta._get_str. The third value of the source,
esc (fmt with repr escaping), is only reachable through the escape_ansi
flag, which no modelled call site sets. -/
inductive StringType where
  | pln | fmt
deriving DecidableEq, Repr

/-- The string of one part for Tinta._get_str: the raw text or the stylized
text. -/
def partStr (attr : StringType) (lp : Option Part) (mp : Part)
    (np : Option Part) : Except Err String :=
  match attr with
  | .pln => .ok mp.s
  | .fmt => stylize mp.s lp mp np

/-- Tinta._get_str: the part string, with the separator appended unless one
of the smart-punctuation early returns fired (when np is none both branches
coincide, _get_sep being empty there). -/
def getStr (attr : StringType) (lp : Option Part) (mp : Part)
    (np : Option Part) (sep : Option String) (fixPunc : Bool) :
    Except Err String := do
  let s ← partStr attr lp mp np
  pure (if fixPunc ∧ suppressSep mp np then s else s ++ getSep mp np sep)

/-- Tinta.to_str: empty builders give the empty string; otherwise the
_get_str fragments of the parts tuples are concatenated. -/
def Tinta.to_str (t : Tinta) (sep : Option String := none)
    (plaintext : Bool := false) (fixPunc : Bool := true) :
    Except Err String :=
  if t.parts.isEmpty then .ok ""
  else do
    let attr : StringType := if plaintext then .pln else .fmt
    let frags ← (partsTuple t.parts).mapM
      (fun x => getStr attr x.1 x.2.1 x.2.2 sep fixPunc)
    pure (String.join frags)

/-- Tinta.set_color (the instance method: delegates to the live style). -/
def Tinta.set_color (reg : Registry) (t : Tinta) (c : ColorArg) :
    Except Err Tinta :=
  (t.styler.set_color reg c).map (fun st => { t with styler := st })

/-- stylize.tint with the color given as the color keyword argument: set the
live color, then push the values. -/
def tint_kw (reg : Registry) (t : Tinta) (color : ColorArg)
    (s : List String) (sep : Option String := none) : Except Err Tinta := do
  let t ← t.set_color reg color
  pure (t.push s sep)

/-- stylize.tint with a positional color: with at most one positional
argument it raises AttributeError, otherwise the first argument is the color
and the rest are the values. -/
def tint_pos (reg : Registry) (t : Tinta) (args : List String)
    (sep : Option String := none) : Except Err Tinta :=
  match args with
  | [] => .error (.attributeError
      "If no color is specified, tint() requires at least two arguments.")
  | [_] => .error (.attributeError
      "If no color is specified, tint() requires at least two arguments.")
  | c :: rest => tint_kw reg t (.str c) rest sep

/-- The chainable builder operations of the source (each mutates the live
style and/or pushes). -/
inductive Op where
  | push (s : List String) (sep : Option String)
  | pop (qty : Nat)
  | bold (s : List String) (sep : Option String)
  | dim (s : List String) (sep : Option String)
  | underline (s : List String) (sep : Option String)
  | strikethrough (s : List String) (sep : Option String)
  | normal (s : List String) (sep : Option String)
  | clear (s : List String) (sep : Option String)
  | default (s : List String) (sep : Option String)
  | nl (s : List String) (sep : Option String)
  | set_color (c : ColorArg)
  | tint (c : ColorArg) (s : List String) (sep : Option String)
deriving DecidableEq, Repr

/-- One builder method call, as in the source bodies: the style toggles and
clears mutate the live style then push; nl stages the line-break prefix then
pushes; set_color and tint may raise MissingColorError. -/
def applyOp (reg : Registry) (op : Op) (t : Tinta) : Except Err Tinta :=
  match op with
  | .push s sep => .ok (t.push s sep)
  | .pop qty => .ok (t.pop qty)
  | .bold s sep => .ok (Tinta.push { t with styler := t.styler.toggle_styles .bold } s sep)
  | .dim s sep => .ok (Tinta.push { t with styler := t.styler.toggle_styles .dim } s sep)
  | .underline s sep => .ok (Tinta.push { t with styler := t.styler.toggle_styles .underline } s sep)
  | .strikethrough s sep => .ok (Tinta.push { t with styler := t.styler.toggle_styles .strikethrough } s sep)
  | .normal s sep => .ok (Tinta.push { t with styler := t.styler.clear_styles } s sep)
  | .clear s sep => .ok (Tinta.push { t with styler := t.styler.clear_all reg true } s sep)
  | .default s sep => .ok (Tinta.push { t with styler := t.styler.set_color_int reg 0 } s sep)
  | .nl s sep => .ok (Tinta.push { t with prefixes := [LINESEP] } s sep)
  | .set_color c => t.set_color reg c
  | .tint c s sep => tint_kw reg t c s sep

/-- Tinta.print, state effect only (output elided): self.clear() then the
segment list is emptied; the same instance stays usable. -/
def printClear (reg : Registry) (t : Tinta) : Tinta :=
  { Tinta.push { t with styler := t.styler.clear_all reg true } [] none
    with parts := [] }

/-- The builder states reachable through the public API: a fresh instance
(with any live style the constructor arguments can produce), the chainable
operations, and the post-print auto-clear. -/
inductive Reachable (reg : Registry) : Tinta → Prop where
  | base (st : Styler) : Reachable reg { styler := st, parts := [], prefixes := [] }
  | step {t t' : Tinta} (op : Op) :
      Reachable reg t → applyOp reg op t = .ok t' → Reachable reg t'
  | printc {t : Tinta} :
      Reachable reg t → Reachable reg (printClear reg t)

/- tinta.py: Tinta.strip_ansi -/

/-- Membership of the first alternative of the strip_ansi pattern: the
character class of codes 0x40-0x5A and 0x5C-0x5F (the open bracket 0x5B is
excluded, so the bracketed alternative is reachable). -/
def escSingle (c : Char) : Bool :=
  (0x40 ≤ c.toNat ∧ c.toNat ≤ 0x5A) ∨ (0x5C ≤ c.toNat ∧ c.toNat ≤ 0x5F)

/-- Parameter bytes of a CSI sequence, 0x30-0x3F. -/
def csiParam (c : Char) : Bool :=
  0x30 ≤ c.toNat ∧ c.toNat ≤ 0x3F

/-- Intermediate bytes of a CSI sequence, 0x20-0x2F. -/
def csiInter (c : Char) : Bool :=
  0x20 ≤ c.toNat ∧ c.toNat ≤ 0x2F

/-- Final byte of a CSI sequence, 0x40-0x7E. -/
def csiFinal (c : Char) : Bool :=
  0x40 ≤ c.toNat ∧ c.toNat ≤ 0x7E

/-- Match of the strip_ansi pattern after its leading ESC: either one
single-character code, or an open bracket, greedy parameter bytes, greedy
intermediate bytes and one final byte. The character classes are pairwise
disjoint, so the greedy scan is the regex match. Returns the rest of the
input after the match. -/
def matchEscTail (l : List Char) : Option (List Char) :=
  match l with
  | [] => none
  | c :: rest =>
      if escSingle c then some rest
      else if c = '[' then
        let r1 := rest.dropWhile csiParam
        let r2 := r1.dropWhile csiInter
        match r2 with
        | e :: r3 => if csiFinal e then some r3 else none
        | [] => none
      else none

/-- re.sub of the strip_ansi pattern with an empty replacement and a
replacement budget: scan left to right, replacing a match found at the
current position and decrementing the budget, keeping the character
otherwise; when the budget is exhausted the remainder is kept unchanged.
The fuel argument only drives structural recursion: every step consumes at
least one input character (matchEscTail_length), so with fuel larger than
the input length the fuel-exhausted arm is never reached. -/
def stripAnsiGo : Nat → Nat → List Char → List Char
  | 0, _, l => l
  | _ + 1, _, [] => []
  | _ + 1, 0, rest => rest
  | fuel + 1, Nat.succ b, c :: rest =>
      if c = '\x1b' then
        match matchEscTail rest with
        | some rest' => stripAnsiGo fuel b rest'
        | none => c :: stripAnsiGo fuel (Nat.succ b) rest
      else c :: stripAnsiGo fuel (Nat.succ b) rest

/-- Tinta.strip_ansi. The fourth positional argument of re.sub is count, not
flags: the source passes re.I | re.M | re.U there, the integer 42, so only
the first 42 matches are removed. -/
def strip_ansi (s : String) : String :=
  String.mk (stripAnsiGo (s.toList.length + 1) 42 s.toList)

/- tinta.py: construction against a loaded registry -/

/-- The attribute names bound on a Tinta instance before color-method
injection: the methods, properties and instance fields of the class (the
inherited object dunders are left out: color keys never collide with them).
hasattr(self, c) is membership here or among the colors already injected,
and injected colors pass the functools.partial guard. -/
def reservedAttrs : List String :=
  ["__init__", "__call__", "__repr__", "__str__", "__getattr__",
   "_get_sep", "_get_str", "to_str", "color", "set_color", "color_code",
   "style", "parts", "_parts_tuple", "current_part", "has_formatting",
   "parts_fmt", "parts_pln", "parts_esc", "push", "pop", "tint", "inspect",
   "bold", "b", "underline", "u", "_", "strikethrough", "dim", "normal",
   "default", "clear", "nl", "print", "discover", "clearline", "up",
   "Styler", "Part", "strip_ansi", "ljust", "rjust",
   "_styler", "_parts", "_prefixes"]

/-- Modelled from the spec: the AnsiColors.color_dict accessor that the
injection loop of Tinta.__init__ iterates (tinta.py line 124, and color_list
at line 645) is missing from the ansi.py provided under src/, which defines
only the _dict_colors field and the dict_colors and list_colors methods;
only the callers of color_dict are present. The spec describes the registry
as the loaded name-to-code mapping, with one dynamically exposed color
method per registry entry, so color_dict is modelled as that mapping. -/
def color_dict (reg : Registry) : Registry := reg

/-- The injection loop of Tinta.__init__: walking the color names of the
registry's color_dict in order, a name already bound to a non-injected
attribute raises AttributeError. -/
def injectCheck (reg : Registry) (iniPath : String) : Except Err Unit :=
  match (color_dict reg).find? (fun kv => reservedAttrs.contains kv.1) with
  | some kv => .error (.attributeError
      s!"Cannot overwrite built-in method {kv.1} with color name. Please rename the color in {iniPath}.")
  | none => .ok ()

/-- Tinta.__init__ with default color and styles: run the injection check
against the loaded registry (through the spec-modelled color_dict accessor
above), then push the initial text if present. -/
def mkTinta (reg : Registry) (iniPath : String) (s : List String) :
    Except Err Tinta := do
  injectCheck reg iniPath
  pure (if s.isEmpty then Tinta.init else Tinta.init.push s none)

/- Concrete builders, claim-side predicates and derived definitions
used by the theorems below. -/

/-- The plaintext fragment of one parts tuple under smart punctuation. -/
def plnFrag (sep : Option String) (x : Option Part × Part × Option Part) :
    String :=
  if suppressSep x.2.1 x.2.2 then x.2.1.s else x.2.1.s ++ getSep x.2.1 x.2.2 sep

def claimSuppress (mpText npText : String) : Bool :=
  npText == "" || mpText == "" ||
  pyEndsWith mpText LINESEP || pyStartsWith npText LINESEP ||
  (match npText.toList with
   | [] => false
   | c :: rest => PUNC.contains c && (rest.isEmpty || rest.head? == some ' '))

instance {ε α : Type} [DecidableEq ε] [DecidableEq α] :
    DecidableEq (Except ε α) := fun x y =>
  match x, y with
  | .ok a, .ok b =>
      if h : a = b then isTrue (by rw [h])
      else isFalse (by intro hh; cases hh; exact h rfl)
  | .error a, .error b =>
      if h : a = b then isTrue (by rw [h])
      else isFalse (by intro hh; cases hh; exact h rfl)
  | .ok _, .error _ => isFalse (by intro hh; cases hh)
  | .error _, .ok _ => isFalse (by intro hh; cases hh)

def c1mp : Part :=
  { s := "A", styler := { color := "red", color_code := 2, bold := true }, sep := " " }

def c1np : Part :=
  { s := "B", styler := { color := "red", color_code := 2, bold := true }, sep := " " }

/-- A chain of single-value pushes. -/
def pushAll (t : Tinta) (xs : List String) : Tinta :=
  xs.foldl (fun acc s => acc.push [s] none) t

/-- The operations named by the immutability claim: the style toggles and
clears, the color setters, and tint. -/
def isStyleOp : Op → Bool
  | .bold _ _ | .dim _ _ | .underline _ _ | .strikethrough _ _
  | .normal _ _ | .clear _ _ | .default _ _
  | .set_color _ | .tint _ _ _ => true
  | .push _ _ | .pop _ | .nl _ _ => false

/-- C9 counterexample builders: push Plain, then tint with color code 2 and
zero values (staging an empty segment), then bold with zero values. -/
def c9t1 : Tinta := Tinta.init.push ["Plain"] none

def c9t2 : Tinta :=
  Tinta.push { c9t1 with styler := c9t1.styler.set_color_int [] 2 } [] none

def c9t3 : Tinta :=
  Tinta.push { c9t2 with styler := c9t2.styler.toggle_styles .bold } [] none

/-- The claim-side property of C2: the string ends with the full reset,
possibly followed only by trailing whitespace. -/
def endsResetWs (s : String) : Bool :=
  pyEndsWith (pyRstrip s) ANSI_RESET

/-- An int color code the codec accepts: the terminal default or a 256-color
index. -/
def CodeOk (n : Int) : Prop := n = 0 ∨ (1 ≤ n ∧ n ≤ 255)

instance decCodeOk (n : Int) : Decidable (CodeOk n) :=
  decidable_of_iff (n = 0 ∨ (1 ≤ n ∧ n ≤ 255)) Iff.rfl

/-- The fragment text of a formatted part, once the on string is known. -/
def fmtBody (mp : Part) (np : Option Part) (onv : String) : String :=
  (if onv ≠ "" then "\x1b[" ++ onv ++ "m" else "") ++
  strTake mp.s (rstripLen mp.s) ++
  (if stylizeOff mp np ≠ "" then "\x1b[" ++ stylizeOff mp np ++ "m" else "") ++
  strDrop mp.s (rstripLen mp.s)

/-- C2 counterexample builders: tint(1, A) then default(B): the second
segment is unstyled, so the rendering ends in plain text after the reset. -/
def c2t1 : Tinta :=
  Tinta.push { Tinta.init with styler := Tinta.init.styler.set_color_int [] 1 }
    ["A"] none

def c2t2 : Tinta :=
  Tinta.push { c2t1 with styler := c2t1.styler.set_color_int [] 0 } ["B"] none

/-- 43 alternating-color tint calls: the styled rendering holds 44 escape
sequences, more than the 42 replacements strip_ansi performs. -/
def c8res : Except Err Tinta :=
  (List.range 43).foldlM
    (fun t i =>
      applyOp [] (.tint (.int (if i % 2 = 0 then 1 else 2)) ["x"] none) t)
    Tinta.init

/-- The builder reached by the 43 tint calls. -/
def c8t : Tinta :=
  match c8res with
  | .ok t => t
  | .error _ => Tinta.init

/-! ## Helper lemmas -/

/-- The rest returned by matchEscTail is strictly shorter than the input
extended by the ESC character. -/
theorem matchEscTail_length {l r : List Char} (h : matchEscTail l = some r) :
    r.length < l.length + 1 := by
  match l with
  | [] => simp [matchEscTail] at h
  | c :: rest =>
      have h1 : (rest.dropWhile csiParam).length ≤ rest.length :=
        (List.dropWhile_suffix _).length_le
      have h2 : ((rest.dropWhile csiParam).dropWhile csiInter).length ≤
          (rest.dropWhile csiParam).length :=
        (List.dropWhile_suffix _).length_le
      by_cases hc : escSingle c
      · simp only [matchEscTail, hc, if_pos, Option.some.injEq] at h
        subst h
        simp
        omega
      · by_cases hb : c = '['
        · subst hb
          have hco : escSingle '[' = false := by decide
          simp only [matchEscTail, hco, Bool.false_eq_true, if_false, reduceIte] at h
          cases hr2 : (rest.dropWhile csiParam).dropWhile csiInter with
          | nil => rw [hr2] at h; cases h
          | cons e r3 =>
              rw [hr2] at h
              by_cases hf : csiFinal e
              · simp only [hf, if_pos, Option.some.injEq] at h
                subst h
                have h3 : r3.length + 1 = ((rest.dropWhile csiParam).dropWhile csiInter).length := by
                  rw [hr2]; simp
                simp only [List.length_cons]
                omega
              · simp [hf] at h
        · simp [matchEscTail, hc, hb] at h

theorem string_mk_append (a b : List Char) :
    String.mk a ++ String.mk b = String.mk (a ++ b) := rfl

theorem string_mk_toList (s : String) : String.mk s.toList = s := by
  cases s; rfl

theorem strTake_append_strDrop (s : String) (k : Nat) :
    strTake s k ++ strDrop s k = s := by
  rw [strTake, strDrop, string_mk_append, List.take_append_drop, string_mk_toList]

theorem string_empty_append (s : String) : "" ++ s = s := by
  cases s; rfl

theorem string_append_empty (s : String) : s ++ "" = s := by
  cases s
  show String.mk (_ ++ []) = _
  rw [List.append_nil]

/-- The characters cut off by rstrip are all whitespace. -/
theorem strDrop_rstripLen_space (s : String) :
    (strDrop s (rstripLen s)).toList.all pyIsSpace = true := by
  rw [List.all_eq_true]
  intro c hc
  have hc2 : c ∈ List.drop (rstripLen s) s.toList := hc
  have hsplit : s.toList = (s.toList.reverse.dropWhile pyIsSpace).reverse ++
      (s.toList.reverse.takeWhile pyIsSpace).reverse := by
    rw [← List.reverse_append, List.takeWhile_append_dropWhile, List.reverse_reverse]
  have hlen : rstripLen s = ((s.toList.reverse.dropWhile pyIsSpace).reverse).length := by
    rw [rstripLen]; simp
  have h3 : List.drop ((s.toList.reverse.dropWhile pyIsSpace).reverse).length s.toList
      = (s.toList.reverse.takeWhile pyIsSpace).reverse := by
    conv_lhs =>
      arg 2
      rw [hsplit]
    exact List.drop_left _ _
  rw [hlen, h3, List.mem_reverse] at hc2
  exact List.mem_takeWhile_imp hc2

/-- Dropping a satisfying block from the front of an append. -/
theorem dropWhile_all_append {p : Char → Bool} :
    ∀ (ws l : List Char), ws.all p = true →
      (ws ++ l).dropWhile p = l.dropWhile p := by
  intro ws
  induction ws with
  | nil => intro l _; rfl
  | cons c cs ih =>
      intro l hall
      rw [List.all_cons, Bool.and_eq_true] at hall
      simp only [List.cons_append, List.dropWhile_cons, hall.1, if_pos]
      exact ih l hall.2

/-- Appending trailing whitespace does not change the rstrip length. -/
theorem rstripLen_append_space (a w : String)
    (hw : w.toList.all pyIsSpace = true) :
    rstripLen (a ++ w) = rstripLen a := by
  have hdata : (a ++ w).toList = a.toList ++ w.toList := rfl
  rw [rstripLen, hdata, List.reverse_append,
    dropWhile_all_append _ _ (by rwa [List.all_reverse]), ← rstripLen]

theorem rstripLen_le (a : String) : rstripLen a ≤ a.toList.length := by
  rw [rstripLen]
  calc (a.toList.reverse.dropWhile pyIsSpace).length
      ≤ a.toList.reverse.length := (List.dropWhile_suffix _).length_le
    _ = a.toList.length := by simp

/-- rstrip ignores a trailing all-whitespace block. -/
theorem pyRstrip_append_space (a w : String)
    (hw : w.toList.all pyIsSpace = true) : pyRstrip (a ++ w) = pyRstrip a := by
  have hdata : (a ++ w).toList = a.toList ++ w.toList := rfl
  rw [pyRstrip, pyRstrip, rstripLen_append_space a w hw, strTake, strTake, hdata,
    List.take_append_of_le_length (rstripLen_le a)]

theorem string_append_assoc (a b c : String) :
    a ++ b ++ c = a ++ (b ++ c) := by
  cases a; cases b; cases c
  show String.mk _ = String.mk _
  rw [List.append_assoc]

theorem stringJoin_cons (a : String) (l : List String) :
    String.join (a :: l) = a ++ String.join l := by
  have key : ∀ (l : List String) (x : String),
      List.foldl (· ++ ·) x l = x ++ List.foldl (· ++ ·) "" l := by
    intro l
    induction l with
    | nil => intro x; simp [string_append_empty]
    | cons b l ih =>
        intro x
        simp only [List.foldl_cons]
        rw [ih (x ++ b), ih ("" ++ b), string_empty_append, string_append_assoc]
  show List.foldl (· ++ ·) ("" ++ a) l = a ++ List.foldl (· ++ ·) "" l
  rw [string_empty_append, key]

theorem getStr_pln (lp : Option Part) (mp : Part) (np : Option Part)
    (sep : Option String) :
    getStr .pln lp mp np sep true = .ok (plnFrag sep (lp, mp, np)) := by
  show Except.ok _ = _
  rw [plnFrag]
  simp only [true_and]

theorem mapM_pln (l : List (Option Part × Part × Option Part))
    (sep : Option String) :
    (l.mapM (fun x => getStr .pln x.1 x.2.1 x.2.2 sep true)) =
      .ok (l.map (plnFrag sep)) := by
  induction l with
  | nil => rfl
  | cons x rest ih =>
      rw [List.mapM_cons, List.map_cons]
      rw [getStr_pln, ih]
      rfl

/-- The plaintext rendering, in closed form. -/
theorem to_str_pln (t : Tinta) (sep : Option String) :
    t.to_str sep true true =
      .ok (String.join ((partsTuple t.parts).map (plnFrag sep))) := by
  rw [Tinta.to_str]
  by_cases h : t.parts.isEmpty
  · rw [if_pos h]
    rw [List.isEmpty_iff] at h
    rw [h]
    rfl
  · rw [if_neg h]
    simp only [reduceIte, mapM_pln]
    rfl

/-- Appending an empty-text part does not change the joined plaintext
fragments (under smart punctuation). -/
theorem joinPln_append_empty (sep : Option String) (x : Part) (hx : x.s = "") :
    ∀ (l : List Part) (prev : Option Part),
      String.join ((tuplesAux prev (l ++ [x])).map (plnFrag sep)) =
        String.join ((tuplesAux prev l).map (plnFrag sep)) := by
  intro l
  induction l with
  | nil =>
      intro prev
      show String.join [plnFrag sep (prev, x, none)] = String.join []
      rw [plnFrag]
      simp only [suppressSep, if_pos]
      rw [hx]
      rfl
  | cons p tail ih =>
      intro prev
      cases tail with
      | nil =>
          show String.join
              [plnFrag sep (prev, p, some x), plnFrag sep (some p, x, none)] =
            String.join [plnFrag sep (prev, p, none)]
          have h1 : plnFrag sep (prev, p, some x) = p.s := by
            rw [plnFrag]
            have : suppressSep p (some x) = true := by
              rw [suppressSep, hx]
              simp
            rw [this, if_pos rfl]
          have h2 : plnFrag sep (some p, x, none) = x.s := by
            rw [plnFrag]
            simp [suppressSep]
          have h3 : plnFrag sep (prev, p, none) = p.s := by
            rw [plnFrag]
            simp [suppressSep]
          rw [h1, h2, h3, hx]
          rw [stringJoin_cons, stringJoin_cons, stringJoin_cons]
          show p.s ++ ("" ++ String.join []) = p.s ++ String.join []
          rw [string_empty_append]
      | cons q rest =>
          show String.join (plnFrag sep (prev, p, some q) ::
              (tuplesAux (some p) (q :: (rest ++ [x]))).map (plnFrag sep)) =
            String.join (plnFrag sep (prev, p, some q) ::
              (tuplesAux (some p) (q :: rest)).map (plnFrag sep))
          rw [stringJoin_cons, stringJoin_cons]
          have := ih (some p)
          rw [show (q :: rest) ++ [x] = q :: (rest ++ [x]) from rfl] at this
          rw [this]

theorem dropLast_append_getLastD {l : List Part} (d : Part) (h : l ≠ []) :
    l.dropLast ++ [l.getLastD d] = l := by
  induction l with
  | nil => cases h rfl
  | cons a tail ih =>
      cases tail with
      | nil => rfl
      | cons b l2 =>
          have h2 : (b :: l2 : List Part) ≠ [] := by simp
          show a :: ((b :: l2).dropLast ++ [(b :: l2).getLastD d]) = _
          rw [ih h2]

/-- Tinta.push with no values and no pending prefixes, in closed form. -/
theorem push_empty_parts (st : Styler) (parts : List Part) (pl : List Part)
    (sep0 : Option String)
    (hp0 : pl = if parts.isEmpty then [({ s := "" } : Part)] else parts) :
    (Tinta.push ⟨st, parts, []⟩ [] sep0).parts =
      (if (pl.getLastD { s := "" }).s ≠ "" then
         pl ++ [{ s := "", styler := st.copy, sep := sep0.getD SEP }]
       else
         pl.dropLast ++ [{ s := "", styler := st.copy, sep := sep0.getD SEP }]) := by
  subst hp0
  rfl

/-- C3 (amended shape lemma): pushing zero values appends one empty-text
part, either after the existing parts or replacing a trailing empty part. -/
theorem c3_parts_shape (t : Tinta) (sep0 : Option String)
    (hpre : t.prefixes = []) :
    ∃ pNew : Part, pNew.s = "" ∧
      ((t.push [] sep0).parts = t.parts ++ [pNew] ∨
       (t.push [] sep0).parts = t.parts.dropLast ++ [pNew]) := by
  obtain ⟨st, parts, pre⟩ := t
  simp only at hpre
  subst hpre
  refine ⟨{ s := "", styler := st.copy, sep := sep0.getD SEP }, rfl, ?_⟩
  cases parts with
  | nil =>
      left
      rfl
  | cons a tail =>
      rw [push_empty_parts st (a :: tail) (a :: tail) sep0 (by simp)]
      by_cases hl : (((a :: tail : List Part)).getLastD { s := "" }).s = ""
      · right
        rw [if_neg (by simpa using hl)]
      · left
        rw [if_pos (by simpa using hl)]

/-- C3 (amended, rendering half): pushing zero values leaves the plaintext
rendering unchanged. -/
theorem c3_pln_unchanged (t : Tinta) (sep0 sep' : Option String)
    (hpre : t.prefixes = []) :
    (t.push [] sep0).to_str sep' true true = t.to_str sep' true true := by
  obtain ⟨st, parts, pre⟩ := t
  simp only at hpre
  subst hpre
  rw [to_str_pln, to_str_pln]
  refine congrArg Except.ok ?_
  cases parts with
  | nil => rfl
  | cons a tail =>
      rw [push_empty_parts st (a :: tail) (a :: tail) sep0 (by simp)]
      by_cases hl : (((a :: tail : List Part)).getLastD { s := "" }).s = ""
      · rw [if_neg (by simpa using hl)]
        have hsplit := dropLast_append_getLastD (l := a :: tail) { s := "" } (by simp)
        conv_rhs => rw [← hsplit]
        simp only [partsTuple]
        rw [joinPln_append_empty sep' _ rfl ((a :: tail : List Part)).dropLast none,
          joinPln_append_empty sep' _ hl ((a :: tail : List Part)).dropLast none]
      · rw [if_pos (by simpa using hl)]
        simp only [partsTuple]
        rw [joinPln_append_empty sep' _ rfl (a :: tail) none]

/- C1 infrastructure: the boundary between two parts with the same snapshot. -/

theorem c1_off (mp np : Part) (hcode : mp.color_code = np.color_code)
    (hstyle : mp.style = np.style) (hfc : mp.styler.force_clear = false) :
    stylizeOff mp (some np) = "" := by
  have hfmt : np.has_formatting = mp.has_formatting := by
    rw [Part.has_formatting, Part.has_formatting]
    have h1 : mp.styler.active_styles = np.styler.active_styles := hstyle
    have h2 : mp.styler.color_code = np.styler.color_code := hcode
    rw [h1, h2]
  by_cases hf : mp.has_formatting = true
  · simp [stylizeOff, hf, hfmt, hfc, hcode, hstyle]
  · simp only [Bool.not_eq_true] at hf
    simp [stylizeOff, hf]

theorem c1_on (mp np : Part) (hcode : mp.color_code = np.color_code)
    (hstyle : mp.style = np.style) :
    stylizeOn (some mp) np = .ok "" := by
  have hfmt : np.has_formatting = mp.has_formatting := by
    rw [Part.has_formatting, Part.has_formatting]
    have h1 : mp.styler.active_styles = np.styler.active_styles := hstyle
    have h2 : mp.styler.color_code = np.styler.color_code := hcode
    rw [h1, h2]
  by_cases hf : np.has_formatting = true
  · have hfm : mp.has_formatting = true := by rw [← hfmt]; exact hf
    simp [stylizeOn, hf, hfm, hstyle.symm, hcode.symm]
    rfl
  · simp only [Bool.not_eq_true] at hf
    simp [stylizeOn, hf]

/- C6 infrastructure: the claim-side suppression condition, written from the
claim text: the separator after segment N is suppressed exactly when the next
text is empty, the current text is empty, a line break meets the junction, or
the next text leads with lone or space-followed punctuation. -/

theorem suppressSep_eq_claim (mp np : Part) :
    suppressSep mp (some np) = claimSuppress mp.s np.s := by
  cases h1 : (np.s == "") <;> cases h2 : (mp.s == "") <;>
    cases h3 : pyStartsWith np.s LINESEP <;> cases h4 : pyEndsWith mp.s LINESEP <;>
      simp [suppressSep, claimSuppress, h1, h2, h3, h4]

/-- stylize, in closed form, once the on string is known. -/
theorem stylize_eq (s : String) (lp : Option Part) (mp : Part)
    (np : Option Part) (onv : String) (h : stylizeOn lp mp = .ok onv) :
    stylize s lp mp np =
      .ok ((if onv ≠ "" then "\x1b[" ++ onv ++ "m" else "") ++
        strTake s (rstripLen s) ++
        (if stylizeOff mp np ≠ "" then "\x1b[" ++ stylizeOff mp np ++ "m" else "") ++
        strDrop s (rstripLen s)) := by
  rw [stylize, h]
  rfl

/-! ## Claim theorems -/

/-- C1: for two consecutive segments whose pushed snapshots carry the
identical color (equal color codes) and the identical style set (equal
active-style lists), the earlier snapshot without an explicit forceClear, the
rendering emits no ANSI code between the two texts: the off string after the
first part and the on string before the second part are both empty, so the
stylized fragment of the first part ends with its own text (no trailing
code) and the stylized fragment of the second part starts with its own
stripped text (no leading code). -/
theorem c1_boundary_dedup (mp np : Part)
    (hcode : mp.color_code = np.color_code)
    (hstyle : mp.style = np.style)
    (hfc : mp.styler.force_clear = false) :
    stylizeOff mp (some np) = "" ∧
    stylizeOn (some mp) np = .ok "" ∧
    (∀ (s : String) (lp : Option Part) (onv : String),
      stylizeOn lp mp = .ok onv →
      stylize s lp mp (some np) =
        .ok ((if onv ≠ "" then "\x1b[" ++ onv ++ "m" else "") ++ s)) ∧
    (∀ (s : String) (np2 : Option Part),
      stylize s (some mp) np np2 =
        .ok (strTake s (rstripLen s) ++
          (if stylizeOff np np2 ≠ "" then "\x1b[" ++ stylizeOff np np2 ++ "m" else "") ++
          strDrop s (rstripLen s))) := by
  refine ⟨c1_off mp np hcode hstyle hfc, c1_on mp np hcode hstyle, ?_, ?_⟩
  · intro s lp onv h
    rw [stylize_eq s lp mp (some np) onv h, c1_off mp np hcode hstyle hfc]
    refine congrArg Except.ok ?_
    have hr : (if ("" : String) ≠ "" then "\x1b[" ++ "" ++ "m" else "") = "" := rfl
    rw [hr, string_append_empty, string_append_assoc, strTake_append_strDrop]
  · intro s np2
    rw [stylize_eq s (some mp) np np2 "" (c1_on mp np hcode hstyle)]
    refine congrArg Except.ok ?_
    have hl : (if ("" : String) ≠ "" then "\x1b[" ++ "" ++ "m" else "") = "" := rfl
    rw [hl, string_empty_append]

/-- C1 witness: the boundary between two concrete equal-styled parts emits
nothing. -/
theorem c1_boundary_dedup_witness :
    stylizeOff c1mp (some c1np) = "" ∧ stylizeOn (some c1mp) c1np = .ok "" :=
  ⟨(c1_boundary_dedup c1mp c1np (by decide) (by decide) (by decide)).1,
   (c1_boundary_dedup c1mp c1np (by decide) (by decide) (by decide)).2.1⟩

/-- C6: under smart punctuation the separator after a part is suppressed
exactly under the conditions of the claim (next text empty, current text
empty, line break at the junction, or lone or space-followed leading
punctuation in the next text); pushing Hello then an exclamation mark gives
plaintext with no space, and Hello then a comma clause keeps the comma
attached. -/
theorem c6_separator_policy :
    (∀ (lp : Option Part) (mp np : Part) (sepO : Option String),
      getStr .pln lp mp (some np) sepO true =
        .ok (if claimSuppress mp.s np.s then mp.s
             else mp.s ++ (sepO.getD mp.sep))) ∧
    ((Tinta.init.push ["Hello"]).push ["!"]).to_str none true true =
      .ok "Hello!" ∧
    ((Tinta.init.push ["Hello"]).push [", world"]).to_str none true true =
      .ok "Hello, world" := by
  refine ⟨?_, by decide, by decide⟩
  intro lp mp np sepO
  rw [getStr_pln]
  refine congrArg Except.ok ?_
  rw [plnFrag, suppressSep_eq_claim]
  rfl

/-- C4: an unregistered color name (not default, not an ANSI escape string)
passed to tint raises MissingColorError, whether the color is the keyword
argument or the leading positional argument; the error is raised by the
registry lookup before any assignment, so no state is produced: no live
style field changes and no segment is appended. -/
theorem c4_missing_color (reg : Registry) (t : Tinta) (name : String)
    (sepO : Option String) (hdef : name ≠ "default")
    (hansi : is_ansi_str name = false) (hreg : reg.lookup name = none) :
    (∀ vals : List String,
      tint_kw reg t (.str name) vals sepO =
        .error (.missingColor s!"Color {name} not found in colors.ini.")) ∧
    (∀ (v : String) (vs : List String),
      tint_pos reg t (name :: v :: vs) sepO =
        .error (.missingColor s!"Color {name} not found in colors.ini.")) := by
  have hget : reg.get name =
      .error (.missingColor s!"Color {name} not found in colors.ini.") := by
    rw [Registry.get, if_neg hdef, if_neg (by simp [hansi]), hreg]
  have hkw : ∀ vals : List String,
      tint_kw reg t (.str name) vals sepO =
        .error (.missingColor s!"Color {name} not found in colors.ini.") := by
    intro vals
    rw [tint_kw, Tinta.set_color, Styler.set_color, hget]
    rfl
  exact ⟨hkw, fun v vs => hkw (v :: vs)⟩

/-- C4 witness: a concrete unregistered name fails with MissingColorError
through both call shapes of tint. -/
theorem c4_missing_color_witness :
    tint_kw [("red", 1)] Tinta.init (.str "sparkle") ["A"] none =
      .error (.missingColor "Color sparkle not found in colors.ini.") ∧
    tint_pos [("red", 1)] Tinta.init ["sparkle", "A"] none =
      .error (.missingColor "Color sparkle not found in colors.ini.") :=
  ⟨(c4_missing_color [("red", 1)] Tinta.init "sparkle" none (by decide)
      (by decide) (by decide)).1 ["A"],
   (c4_missing_color [("red", 1)] Tinta.init "sparkle" none (by decide)
      (by decide) (by decide)).2 "A" []⟩

/-- C5 counterexample: the registry load operation itself does not fail on a
key that names a builder operation; the mapping is accepted and returned
with the reserved key intact (the reserved-name check in load_colors is
commented out in the source). -/
theorem c5_counterexample :
    load_colors [("print", 3)] = [("print", 3)] := by decide

/-- C5 (amended): load_colors accepts any mapping; the reserved-name
conflict is instead detected when a Tinta instance is constructed against
the loaded registry, whose injection loop raises AttributeError for a color
name already bound as a builder attribute, so no instance ever exposes a
color that shadows a builder method. The injection loop iterates the
registry's color_dict, an accessor whose definition is missing from the
ansi.py under src/ and is modelled from the spec (see the color_dict
definition above) as the loaded name-to-code mapping. -/
theorem c5_reserved_name (reg : Registry) (iniPath : String) (s : List String)
    (k : String) (v : Int) (hk : (k, v) ∈ reg) (hres : k ∈ reservedAttrs) :
    ∃ msg, mkTinta reg iniPath s = .error (.attributeError msg) := by
  have hsome : (reg.find? (fun kv => reservedAttrs.contains kv.1)).isSome := by
    rw [List.find?_isSome]
    exact ⟨(k, v), hk, by simpa using hres⟩
  obtain ⟨kv, hkv⟩ := Option.isSome_iff_exists.mp hsome
  refine ⟨s!"Cannot overwrite built-in method {kv.1} with color name. Please rename the color in {iniPath}.", ?_⟩
  rw [mkTinta, injectCheck, color_dict, hkv]
  rfl

/-- C5 witness: a registry defining a color named print makes instance
construction fail. -/
theorem c5_reserved_name_witness :
    ∃ msg, mkTinta [("print", 3)] "colors.ini" [] =
      .error (.attributeError msg) :=
  c5_reserved_name [("print", 3)] "colors.ini" [] "print" 3 (by decide)
    (by decide)

/- C7 infrastructure -/

theorem copy_force_clear (st : Styler) :
    ({ st with force_clear := false } : Styler).copy = st.copy := rfl

/-- Pushing one non-empty value onto a builder whose last part holds text
appends one part. -/
theorem push_cons_case (st : Styler) (a : Part) (tail : List Part)
    (x : String)
    (hlast : (((a :: tail : List Part)).getLastD { s := "" }).s ≠ "") :
    Tinta.push ⟨st, a :: tail, []⟩ [x] none =
      ⟨{ st with force_clear := false },
       (a :: tail) ++ [{ s := x, styler := st.copy, sep := SEP }], []⟩ := by
  rw [Tinta.push]
  simp only [List.isEmpty_cons, Bool.false_eq_true, if_false, reduceIte,
    List.isEmpty_nil]
  rw [if_pos hlast]
  rw [show ((none : Option String)).getD SEP = SEP from rfl,
    show String.intercalate SEP [x] = x from rfl]

theorem pushAll_parts :
    ∀ (xs : List String) (st : Styler) (a : Part) (tail : List Part),
      (∀ s ∈ xs, s ≠ "") →
      (((a :: tail : List Part)).getLastD { s := "" }).s ≠ "" →
      (pushAll ⟨st, a :: tail, []⟩ xs).parts =
        (a :: tail) ++ xs.map (fun s => { s := s, styler := st.copy, sep := SEP }) := by
  intro xs
  induction xs with
  | nil => intro st a tail _ _; simp [pushAll]
  | cons x rest ih =>
      intro st a tail hxs hlast
      show (pushAll (Tinta.push ⟨st, a :: tail, []⟩ [x] none) rest).parts = _
      rw [push_cons_case st a tail x hlast]
      have hx : x ≠ "" := hxs x (by simp)
      have hnew : (((a :: (tail ++ [{ s := x, styler := st.copy, sep := SEP }]) :
          List Part)).getLastD { s := "" }).s ≠ "" := by
        have : ((a :: (tail ++ [{ s := x, styler := st.copy, sep := SEP }]) :
            List Part)) = (a :: tail) ++ [{ s := x, styler := st.copy, sep := SEP }] := by
          simp
        rw [this, List.getLastD_concat]
        exact hx
      have := ih { st with force_clear := false } a
        (tail ++ [{ s := x, styler := st.copy, sep := SEP }])
        (fun s hs => hxs s (by simp [hs])) hnew
      rw [show ((a :: tail) ++ [{ s := x, styler := st.copy, sep := SEP }] : List Part) =
        a :: (tail ++ [{ s := x, styler := st.copy, sep := SEP }]) from by simp] at *
      rw [this, copy_force_clear]
      simp

theorem pushAll_init_parts (xs : List String) (hxs : ∀ s ∈ xs, s ≠ "") :
    (pushAll Tinta.init xs).parts =
      xs.map (fun s => { s := s, styler := ({} : Styler), sep := SEP }) := by
  cases xs with
  | nil => rfl
  | cons x rest =>
      have hfirst : Tinta.init.push [x] none =
          ⟨{}, [{ s := x, styler := ({} : Styler), sep := SEP }], []⟩ := rfl
      show (pushAll (Tinta.init.push [x] none) rest).parts = _
      rw [hfirst]
      have hx : x ≠ "" := hxs x (by simp)
      rw [pushAll_parts rest {} { s := x, styler := ({} : Styler), sep := SEP } []
        (fun s hs => hxs s (by simp [hs])) (by simpa using hx)]
      rfl

/-- to_str depends only on the part list. -/
theorem to_str_parts_congr (t t' : Tinta) (h : t.parts = t'.parts)
    (sep : Option String) (pl fp : Bool) :
    t.to_str sep pl fp = t'.to_str sep pl fp := by
  rw [Tinta.to_str, Tinta.to_str, h]

/-- C7: pop removes up to n trailing segments: beyond the available count it
empties the builder without error; the live style becomes a copy of the new
last snapshot or a fresh default; and for a builder made of non-empty
pushes, pop n followed by plaintext rendering equals the plaintext rendering
of the builder that never pushed the last n values. -/
theorem c7_pop :
    (∀ (t : Tinta) (n : Nat), t.parts.length ≤ n → (t.pop n).parts = []) ∧
    (∀ (t : Tinta) (n : Nat),
      (t.pop n).styler = (match (t.pop n).parts.getLast? with
        | some p => p.styler.copy
        | none => ({} : Styler))) ∧
    (∀ (xs : List String) (n : Nat), (∀ s ∈ xs, s ≠ "") →
      ((pushAll Tinta.init xs).pop n).to_str none true true =
        (pushAll Tinta.init (xs.take (xs.length - n))).to_str none true true) := by
  refine ⟨?_, ?_, ?_⟩
  · intro t n h
    rw [Tinta.pop]
    show t.parts.take (t.parts.length - n) = []
    rw [Nat.sub_eq_zero_of_le h, List.take_zero]
  · intro t n
    rfl
  · intro xs n hxs
    rw [to_str_pln, to_str_pln]
    refine congrArg Except.ok ?_
    have h1 : ((pushAll Tinta.init xs).pop n).parts =
        (xs.take (xs.length - n)).map
          (fun s => { s := s, styler := ({} : Styler), sep := SEP }) := by
      rw [Tinta.pop]
      show (pushAll Tinta.init xs).parts.take
        ((pushAll Tinta.init xs).parts.length - n) = _
      rw [pushAll_init_parts xs hxs]
      rw [List.length_map, ← List.map_take]
    have h2 : (pushAll Tinta.init (xs.take (xs.length - n))).parts =
        (xs.take (xs.length - n)).map
          (fun s => { s := s, styler := ({} : Styler), sep := SEP }) :=
      pushAll_init_parts _ (fun s hs => hxs s (List.take_subset _ _ hs))
    rw [h1, h2]

/-- C7 witness: popping one of two pushed segments renders like never having
pushed the second. -/
theorem c7_pop_witness :
    ((pushAll Tinta.init ["ab", "cd"]).pop 1).to_str none true true =
      (pushAll Tinta.init
        (["ab", "cd"].take (["ab", "cd"].length - 1))).to_str none true true :=
  c7_pop.2.2 ["ab", "cd"] 1 (by decide)

/-- C3 counterexample: pushing zero values is not a no-op on the segment
list: after one non-empty push, a zero-value push appends an (empty)
segment. -/
theorem c3_counterexample :
    ¬ ((Tinta.init.push ["Hello"] none).push [] none).parts =
        (Tinta.init.push ["Hello"] none).parts := by decide

/-- C3 (amended): with no pending line-break prefixes, pushing zero values
appends one empty-text segment (or refreshes a trailing empty segment in
place), and the plaintext rendering before and after the call is identical
(no duplicated whitespace). -/
theorem c3_push_zero_values (t : Tinta) (sep0 sep' : Option String)
    (hpre : t.prefixes = []) :
    (∃ pNew : Part, pNew.s = "" ∧
      ((t.push [] sep0).parts = t.parts ++ [pNew] ∨
       (t.push [] sep0).parts = t.parts.dropLast ++ [pNew])) ∧
    (t.push [] sep0).to_str sep' true true = t.to_str sep' true true :=
  ⟨c3_parts_shape t sep0 hpre, c3_pln_unchanged t sep0 sep' hpre⟩

/-- C3 witness: the zero-value push after pushing Hello keeps the plaintext
rendering. -/
theorem c3_push_zero_values_witness :
    (∃ pNew : Part, pNew.s = "" ∧
      (((Tinta.init.push ["Hello"] none).push [] none).parts =
          (Tinta.init.push ["Hello"] none).parts ++ [pNew] ∨
       ((Tinta.init.push ["Hello"] none).push [] none).parts =
          (Tinta.init.push ["Hello"] none).parts.dropLast ++ [pNew])) ∧
    ((Tinta.init.push ["Hello"] none).push [] none).to_str none true true =
      (Tinta.init.push ["Hello"] none).to_str none true true :=
  c3_push_zero_values (Tinta.init.push ["Hello"] none) none none (by decide)

/- C9 and C10 infrastructure -/

/-- push keeps every already-committed part with non-empty text at its
index: the in-place update branch only ever rewrites a trailing empty
part. -/
theorem push_preserves_nonempty (t : Tinta) (s : List String)
    (sep0 : Option String) (i : Nat) (p : Part)
    (hp : t.parts[i]? = some p) (hps : p.s ≠ "") :
    (t.push s sep0).parts[i]? = some p := by
  have hi : i < t.parts.length := by
    rcases List.getElem?_eq_some.mp hp with ⟨h, _⟩
    exact h
  cases hparts : t.parts with
  | nil => rw [hparts] at hi; simp at hi
  | cons a tail =>
      rw [hparts] at hp hi
      simp only [Tinta.push, hparts, List.isEmpty_cons, Bool.false_eq_true,
        if_false, reduceIte]
      by_cases hl : (((a :: tail : List Part)).getLastD { s := "" }).s ≠ ""
      · rw [if_pos hl]
        rw [List.getElem?_append_left hi]
        exact hp
      · rw [if_neg hl]
        simp only [ne_eq, Decidable.not_not] at hl
        have hine : i ≠ (a :: tail).length - 1 := by
          intro heq
          have hlast : (a :: tail : List Part).getLast? = some p := by
            rw [List.getLast?_eq_getElem?]
            rw [← heq]
            exact hp
          have hgl : ((a :: tail : List Part)).getLastD { s := "" } = p := by
            rw [List.getLastD_eq_getLast?, hlast]
            rfl
          rw [hgl] at hl
          exact hps hl
        have hi2 : i < ((a :: tail : List Part)).dropLast.length := by
          rw [List.length_dropLast]
          simp only [List.length_cons] at hi hine ⊢
          omega
        rw [List.getElem?_append_left hi2]
        rw [List.getElem?_dropLast, if_pos (by simpa using hi2)]
        exact hp

/-- C9 counterexample: a zero-value color call appends an (empty) segment,
and the subsequent bold call rewrites that appended segment's snapshot in
place - the captured snapshot of an already-appended segment is not immune
to later style calls when its text is still empty. -/
theorem c9_counterexample :
    applyOp [] (.tint (.int 2) [] none) c9t1 = .ok c9t2 ∧
    applyOp [] (.bold [] none) c9t2 = .ok c9t3 ∧
    (c9t2.parts[1]?).map (fun p => p.s) = some "" ∧
    (c9t2.parts[1]?).map (fun p => p.styler.bold) = some false ∧
    (c9t3.parts[1]?).map (fun p => p.styler.bold) = some true := by decide

/-- C9 (amended): every already-appended segment with non-empty committed
text is frozen: applying any of the style operations of the claim (bold,
dim, underline, strikethrough, normal, clear, default, set_color, tint)
leaves that segment - text, captured style snapshot and separator -
unchanged at its index. -/
theorem c9_style_ops_frame (reg : Registry) (op : Op) (t t' : Tinta)
    (i : Nat) (p : Part) (hop : isStyleOp op = true)
    (happ : applyOp reg op t = .ok t')
    (hp : t.parts[i]? = some p) (hps : p.s ≠ "") :
    t'.parts[i]? = some p := by
  cases op with
  | push s sep => simp [isStyleOp] at hop
  | pop n => simp [isStyleOp] at hop
  | nl s sep => simp [isStyleOp] at hop
  | bold s sep =>
      simp only [applyOp, Except.ok.injEq] at happ
      subst happ
      exact push_preserves_nonempty _ s sep i p hp hps
  | dim s sep =>
      simp only [applyOp, Except.ok.injEq] at happ
      subst happ
      exact push_preserves_nonempty _ s sep i p hp hps
  | underline s sep =>
      simp only [applyOp, Except.ok.injEq] at happ
      subst happ
      exact push_preserves_nonempty _ s sep i p hp hps
  | strikethrough s sep =>
      simp only [applyOp, Except.ok.injEq] at happ
      subst happ
      exact push_preserves_nonempty _ s sep i p hp hps
  | normal s sep =>
      simp only [applyOp, Except.ok.injEq] at happ
      subst happ
      exact push_preserves_nonempty _ s sep i p hp hps
  | clear s sep =>
      simp only [applyOp, Except.ok.injEq] at happ
      subst happ
      exact push_preserves_nonempty _ s sep i p hp hps
  | default s sep =>
      simp only [applyOp, Except.ok.injEq] at happ
      subst happ
      exact push_preserves_nonempty _ s sep i p hp hps
  | set_color c =>
      simp only [applyOp, Tinta.set_color] at happ
      cases hsc : t.styler.set_color reg c with
      | error e => rw [hsc] at happ; cases happ
      | ok st =>
          rw [hsc] at happ
          have happ2 : Except.ok { t with styler := st } = Except.ok t' := happ
          injection happ2 with h2
          subst h2
          exact hp
  | tint c s sep =>
      simp only [applyOp, tint_kw, Tinta.set_color] at happ
      cases hsc : t.styler.set_color reg c with
      | error e => rw [hsc] at happ; cases happ
      | ok st =>
          rw [hsc] at happ
          have happ2 : Except.ok (Tinta.push { t with styler := st } s sep) =
              Except.ok t' := happ
          injection happ2 with h2
          subst h2
          exact push_preserves_nonempty _ s sep i p hp hps

/-- C9 witness: bold with a new value leaves the committed Plain segment in
place. -/
theorem c9_style_ops_frame_witness :
    (Tinta.push { c9t1 with styler := c9t1.styler.toggle_styles .bold }
      ["X"] none).parts[0]? = some { s := "Plain", styler := {}, sep := SEP } :=
  c9_style_ops_frame [] (.bold ["X"] none) c9t1
    (Tinta.push { c9t1 with styler := c9t1.styler.toggle_styles .bold } ["X"] none)
    0 { s := "Plain", styler := {}, sep := SEP }
    (by decide) rfl (by decide) (by decide)

/- C10 infrastructure -/

theorem push_parts_force_clear (t : Tinta) (s : List String)
    (sep0 : Option String)
    (h : ∀ p ∈ t.parts, p.styler.force_clear = false) :
    ∀ p ∈ (t.push s sep0).parts, p.styler.force_clear = false := by
  intro p hp
  simp only [Tinta.push] at hp
  by_cases he : t.parts.isEmpty = true
  · rw [if_pos he] at hp
    simp at hp
    rw [hp]
    rfl
  · rw [if_neg he] at hp
    split at hp
    · rcases List.mem_append.mp hp with hq | hq
      · exact h p hq
      · simp only [List.mem_singleton] at hq
        subst hq
        rfl
    · rcases List.mem_append.mp hp with hq | hq
      · exact h p (List.dropLast_subset _ hq)
      · simp only [List.mem_singleton] at hq
        subst hq
        rfl

/-- C10: Styler.copy never carries _force_clear (the copy falls back to the
class default False); push resets the live style's _force_clear; and in
every builder state reachable through the public API every stored part's
snapshot has _force_clear = False, so the stylize off-code branch guarded by
the stored snapshot's forceClear never fires for a stored segment. -/
theorem c10_force_clear_invariant :
    (∀ st : Styler, st.copy.force_clear = false) ∧
    (∀ (t : Tinta) (s : List String) (sep0 : Option String),
      (t.push s sep0).styler.force_clear = false) ∧
    (∀ (reg : Registry) (t : Tinta), Reachable reg t →
      ∀ p ∈ t.parts, p.styler.force_clear = false) := by
  refine ⟨fun st => rfl, fun t s sep0 => rfl, ?_⟩
  intro reg t hreach
  induction hreach with
  | base st => intro p hp; simp at hp
  | @step t1 t2 op hr happ ih =>
      cases op with
      | push s sep =>
          simp only [applyOp, Except.ok.injEq] at happ
          subst happ
          exact push_parts_force_clear _ s sep ih
      | pop n =>
          simp only [applyOp, Except.ok.injEq] at happ
          subst happ
          intro p hp
          exact ih p (List.take_subset _ _ hp)
      | bold s sep =>
          simp only [applyOp, Except.ok.injEq] at happ
          subst happ
          exact push_parts_force_clear _ s sep ih
      | dim s sep =>
          simp only [applyOp, Except.ok.injEq] at happ
          subst happ
          exact push_parts_force_clear _ s sep ih
      | underline s sep =>
          simp only [applyOp, Except.ok.injEq] at happ
          subst happ
          exact push_parts_force_clear _ s sep ih
      | strikethrough s sep =>
          simp only [applyOp, Except.ok.injEq] at happ
          subst happ
          exact push_parts_force_clear _ s sep ih
      | normal s sep =>
          simp only [applyOp, Except.ok.injEq] at happ
          subst happ
          exact push_parts_force_clear _ s sep ih
      | clear s sep =>
          simp only [applyOp, Except.ok.injEq] at happ
          subst happ
          exact push_parts_force_clear _ s sep ih
      | default s sep =>
          simp only [applyOp, Except.ok.injEq] at happ
          subst happ
          exact push_parts_force_clear _ s sep ih
      | nl s sep =>
          simp only [applyOp, Except.ok.injEq] at happ
          subst happ
          exact push_parts_force_clear _ s sep ih
      | set_color c =>
          simp only [applyOp, Tinta.set_color] at happ
          cases hsc : t1.styler.set_color reg c with
          | error e => rw [hsc] at happ; cases happ
          | ok st =>
              rw [hsc] at happ
              have happ2 : Except.ok { t1 with styler := st } = Except.ok t2 := happ
              injection happ2 with h2
              subst h2
              exact ih
      | tint c s sep =>
          simp only [applyOp, tint_kw, Tinta.set_color] at happ
          cases hsc : t1.styler.set_color reg c with
          | error e => rw [hsc] at happ; cases happ
          | ok st =>
              rw [hsc] at happ
              have happ2 : Except.ok (Tinta.push { t1 with styler := st } s sep) =
                  Except.ok t2 := happ
              injection happ2 with h2
              subst h2
              exact push_parts_force_clear _ s sep ih
  | @printc t1 hr ih =>
      intro p hp
      simp [printClear] at hp

/-- C10 witness: the stored snapshot of a concretely reached builder has no
force-clear flag. -/
theorem c10_force_clear_invariant_witness :
    ({ s := "hi", styler := {}, sep := SEP } : Part).styler.force_clear = false :=
  c10_force_clear_invariant.2.2 [] (Tinta.init.push ["hi"] none)
    (Reachable.step (Op.push ["hi"] none) (Reachable.base {}) rfl)
    { s := "hi", styler := {}, sep := SEP } (by decide)

/- C2 infrastructure -/

theorem stylizeOn_ok (lp : Option Part) (mp : Part)
    (h : CodeOk mp.color_code) : ∃ v, stylizeOn lp mp = .ok v := by
  have hcc : mp.color_code ≠ 0 → ∃ j, colorCode mp.color_code 30 = .ok j := by
    intro hc
    rcases h with h0 | hrange
    · exact absurd h0 hc
    · exact ⟨_, by rw [colorCode, if_neg hc, if_pos hrange]⟩
  unfold stylizeOn
  by_cases hf : ¬ mp.has_formatting = true
  · rw [if_pos hf]
    exact ⟨"", rfl⟩
  · rw [if_neg hf]
    cases lp with
    | none =>
        show ∃ v, (if mp.color_code ≠ 0 ∧ (true : Bool) = true then
            (colorCode mp.color_code 30).bind (fun cc => pure (pyJoin
              [pyJoin (mp.style.map (fun st => toString (styleOn st))), cc]))
          else pure (pyJoin (mp.style.map (fun st => toString (styleOn st))))) =
            .ok v
        by_cases hc : mp.color_code ≠ 0 ∧ (true : Bool) = true
        · rw [if_pos hc]
          obtain ⟨j, hj⟩ := hcc hc.1
          rw [hj]
          exact ⟨_, rfl⟩
        · rw [if_neg hc]
          exact ⟨_, rfl⟩
    | some l =>
        show ∃ v,
          (if mp.color_code ≠ 0 ∧ (decide (mp.color_code ≠ l.color_code)) = true
           then
            (colorCode mp.color_code 30).bind (fun cc => pure (pyJoin
              [if ¬ l.has_formatting = true then
                 pyJoin (mp.style.map (fun st => toString (styleOn st)))
               else if mp.style ≠ l.style then
                 pyJoin ((mp.style.filter (fun st => st ∉ l.style)).map
                   (fun st => toString (styleOn st)))
               else "", cc]))
          else pure (if ¬ l.has_formatting = true then
                 pyJoin (mp.style.map (fun st => toString (styleOn st)))
               else if mp.style ≠ l.style then
                 pyJoin ((mp.style.filter (fun st => st ∉ l.style)).map
                   (fun st => toString (styleOn st)))
               else "")) = .ok v
        by_cases hc :
            mp.color_code ≠ 0 ∧ (decide (mp.color_code ≠ l.color_code)) = true
        · rw [if_pos hc]
          obtain ⟨j, hj⟩ := hcc hc.1
          rw [hj]
          exact ⟨_, rfl⟩
        · rw [if_neg hc]
          exact ⟨_, rfl⟩

theorem getStr_fmt_eq (lp : Option Part) (mp : Part) (np : Option Part)
    (sepO : Option String) (onv : String)
    (honv : stylizeOn lp mp = .ok onv) :
    getStr .fmt lp mp np sepO true =
      .ok (if suppressSep mp np then fmtBody mp np onv
           else fmtBody mp np onv ++ getSep mp np sepO) := by
  rw [getStr, partStr, stylize_eq mp.s lp mp np onv honv]
  show Except.ok _ = _
  rw [fmtBody]
  simp only [true_and]

theorem getStr_fmt_ok (lp : Option Part) (mp : Part) (np : Option Part)
    (sepO : Option String) (h : CodeOk mp.color_code) :
    ∃ v, getStr .fmt lp mp np sepO true = .ok v := by
  obtain ⟨onv, honv⟩ := stylizeOn_ok lp mp h
  exact ⟨_, getStr_fmt_eq lp mp np sepO onv honv⟩

/-- The rendered fragment of a formatted part with no next part ends in the
full reset followed by the trailing whitespace of its own text. -/
theorem last_frag_reset (lp : Option Part) (mp : Part) (sepO : Option String)
    (hok : CodeOk mp.color_code) (hf : mp.has_formatting = true) :
    ∃ pre, getStr .fmt lp mp none sepO true =
      .ok (pre ++ ANSI_RESET ++ strDrop mp.s (rstripLen mp.s)) := by
  obtain ⟨onv, honv⟩ := stylizeOn_ok lp mp hok
  have hoff : stylizeOff mp none = "0" := by
    rw [stylizeOff, if_neg (by simp [hf])]
  refine ⟨(if onv ≠ "" then "\x1b[" ++ onv ++ "m" else "") ++
    strTake mp.s (rstripLen mp.s), ?_⟩
  rw [getStr_fmt_eq lp mp none sepO onv honv]
  rw [if_pos (show suppressSep mp none = true from rfl)]
  refine congrArg Except.ok ?_
  rw [fmtBody, hoff]
  rw [show (if ("0" : String) ≠ "" then "\x1b[" ++ "0" ++ "m" else "") =
    ANSI_RESET from rfl]

/-- Rendering a non-empty part chain whose last part is formatted: every
fragment renders, and the joined string ends in the reset plus the last
text's trailing whitespace. -/
theorem render_fmt_chain :
    ∀ (l : List Part) (prev : Option Part) (sepO : Option String),
      (∀ p ∈ l, CodeOk p.color_code) →
      ∀ lastp, l.getLast? = some lastp → lastp.has_formatting = true →
      ∃ fs, (tuplesAux prev l).mapM
          (fun x => getStr .fmt x.1 x.2.1 x.2.2 sepO true) = .ok fs ∧
        ∃ pre, String.join fs =
          pre ++ ANSI_RESET ++ strDrop lastp.s (rstripLen lastp.s) := by
  intro l
  induction l with
  | nil => intro prev sepO _ lastp hl; simp at hl
  | cons p tail ih =>
      intro prev sepO hok lastp hl hf
      cases tail with
      | nil =>
          have hp : p = lastp := by simpa using hl
          subst hp
          obtain ⟨pre, hfrag⟩ := last_frag_reset prev p sepO (hok p (by simp)) hf
          refine ⟨[pre ++ ANSI_RESET ++ strDrop p.s (rstripLen p.s)], ?_, pre, ?_⟩
          · show List.mapM _ [(prev, p, none)] = _
            rw [List.mapM_cons, hfrag, List.mapM_nil]
            rfl
          · rw [stringJoin_cons]
            show _ ++ String.join [] = _
            rw [show String.join ([] : List String) = "" from rfl, string_append_empty]
      | cons q rest =>
          obtain ⟨frag0, hfrag0⟩ :=
            getStr_fmt_ok prev p (some q) sepO (hok p (by simp))
          have hl' : (q :: rest).getLast? = some lastp := by
            rw [← List.getLast?_cons_cons (a := p)]
            exact hl
          obtain ⟨fs, hfs, pre, hjoin⟩ := ih (some p) sepO
            (fun x hx => hok x (by simp [hx])) lastp hl' hf
          refine ⟨frag0 :: fs, ?_, frag0 ++ pre, ?_⟩
          · show List.mapM _ ((prev, p, some q) :: tuplesAux (some p) (q :: rest)) = _
            rw [List.mapM_cons, hfrag0, hfs]
            rfl
          · rw [stringJoin_cons, hjoin, string_append_assoc, string_append_assoc,
              string_append_assoc]

/-- C2 counterexample: a non-empty builder with a styled first segment and an
unstyled last segment renders to a string that does not end in the reset
sequence (even allowing trailing whitespace): the reset sits before the
separator, and the plain text B follows it. -/
theorem c2_counterexample :
    applyOp [] (.tint (.int 1) ["A"] none) Tinta.init = .ok c2t1 ∧
    applyOp [] (.default ["B"] none) c2t1 = .ok c2t2 ∧
    (c2t1.parts[0]?).map Part.has_formatting = some true ∧
    c2t2.to_str none false true = .ok "\x1b[38;5;1mA\x1b[0m B" ∧
    endsResetWs "\x1b[38;5;1mA\x1b[0m B" = false := by decide

/-- Appending the reset keeps the string unstripped (its last character is
not whitespace). -/
theorem pyRstrip_append_reset (x : String) :
    pyRstrip (x ++ ANSI_RESET) = x ++ ANSI_RESET := by
  have hrev : (x ++ ANSI_RESET).toList.reverse =
      'm' :: ('0' :: ('[' :: ('\x1b' :: x.toList.reverse))) := by
    rw [show (x ++ ANSI_RESET).toList = x.toList ++ ANSI_RESET.toList from rfl,
      List.reverse_append]
    rfl
  have hdrop : (x ++ ANSI_RESET).toList.reverse.dropWhile pyIsSpace =
      (x ++ ANSI_RESET).toList.reverse := by
    rw [hrev]
    rw [List.dropWhile_cons]
    simp [pyIsSpace]
  rw [pyRstrip, rstripLen, hdrop, strTake]
  rw [List.length_reverse, List.take_length, string_mk_toList]

theorem pyEndsWith_append_reset (x : String) :
    pyEndsWith (x ++ ANSI_RESET) ANSI_RESET = true := by
  rw [pyEndsWith]
  rw [show (x ++ ANSI_RESET).toList = x.toList ++ ANSI_RESET.toList from rfl,
    List.reverse_append]
  rw [List.isPrefixOf_iff_prefix]
  exact List.prefix_append _ _

/-- C2 (amended): for every builder whose LAST segment is formatted (and
whose stored color codes the codec accepts), to_str with plaintext=false
succeeds and yields a string ending in the reset sequence followed only by
trailing whitespace; the full reset is appended after the segment that has
no next segment. Without the condition on the last segment the claim fails
(see the counterexample): an unstyled last segment is emitted after the
reset. -/
theorem c2_reset_terminated (t : Tinta) (sepO : Option String) (lastp : Part)
    (hl : t.parts.getLast? = some lastp) (hf : lastp.has_formatting = true)
    (hok : ∀ p ∈ t.parts, CodeOk p.color_code) :
    ∃ out, t.to_str sepO false true = .ok out ∧ endsResetWs out = true ∧
      ∃ pre ws, out = pre ++ ANSI_RESET ++ ws ∧
        ws.toList.all pyIsSpace = true := by
  obtain ⟨fs, hfs, pre, hjoin⟩ :=
    render_fmt_chain t.parts none sepO hok lastp hl hf
  have hne : ¬ t.parts.isEmpty = true := by
    intro he
    rw [List.isEmpty_iff] at he
    rw [he] at hl
    simp at hl
  refine ⟨String.join fs, ?_, ?_, pre,
    strDrop lastp.s (rstripLen lastp.s), hjoin, strDrop_rstripLen_space _⟩
  · rw [Tinta.to_str, if_neg hne]
    simp only [Bool.false_eq_true, if_false]
    rw [show partsTuple t.parts = tuplesAux none t.parts from rfl, hfs]
    rfl
  · rw [hjoin, endsResetWs]
    rw [pyRstrip_append_space _ _ (strDrop_rstripLen_space _)]
    rw [pyRstrip_append_reset]
    exact pyEndsWith_append_reset pre

/-- C2 witness: a single styled segment renders reset-terminated. -/
theorem c2_reset_terminated_witness :
    ∃ out, c2t1.to_str none false true = .ok out ∧ endsResetWs out = true ∧
      ∃ pre ws, out = pre ++ ANSI_RESET ++ ws ∧
        ws.toList.all pyIsSpace = true :=
  c2_reset_terminated c2t1 none
    { s := "A", styler := { color := "[undefined color]", color_code := 1 }, sep := SEP }
    (by decide) (by decide) (by decide)

/- C8: the strip-ANSI round trip. -/

set_option maxRecDepth 8192

/-- C8: the claimed round trip stripAnsi(render()) = render(plaintext=true)
fails on the code: re.sub is called with re.I ||| re.M ||| re.U (the integer
42) in its count parameter, so only the first 42 escape sequences are
removed; on a 43-segment alternating-color builder the styled rendering
holds 44 escape sequences and two survive stripping, which the plaintext
rendering does not contain. -/
theorem c8_strip_count_bug :
    c8res = .ok c8t ∧
    (c8t.to_str none false true).map strip_ansi ≠ c8t.to_str none true true := by
  constructor
  · decide
  · decide

end TintaModel
